import Mathlib

/-!
Shallow embedding of the acsuite audio-trimming library (src/acsuite):
`__init__.py` (eztrim, f2ts, _negative_to_positive, _check_ordered),
`timecode.py` (get_timecodes, frames_to_timecodes) and
`ffmpeg.py` (FFmpegAudio.copy_or_decode, clip_single, concat, recut).

Modelling conventions:
* Python ints are `Int`; exact `fractions.Fraction` arithmetic, and the float
  arithmetic the code derives from it, are modelled as `ℚ`.
* The filesystem is a finite multiset of file names (`List FName`);
  `os.remove`, `os.rename` and file creation are explicit state updates.
  File names produced by fixed patterns are symbolic constructors
  (`FName.manifest` for "_acsuite_temp_concat.txt", `FName.seg k` for
  "_acsuite_temp_output_{k}<ext>", `FName.tmp k` for the names drawn from
  `tempfile._get_candidate_names` in `get_temp_filename`); this assumes the
  corresponding concrete path strings are pairwise distinct, which holds for
  the fixed patterns and for fresh candidate names.
* Each external `ffmpeg` invocation is logged in `S.runs`; whether an
  invocation produces its output file is given by an oracle `Nat → Bool`
  indexed by the number of invocations made so far.  (`subprocess.run` as
  used in `eztrim` never raises for a failing command and its exit status is
  ignored by the code; in `FFmpegAudio.ffmpeg` a failing command raises
  `CalledProcessError` because of `check=True`.)
* `warnings.warn` calls are logged in `S.warns`; an overwrite of an existing
  file (by `os.rename` or by ffmpeg's `-y`) is logged in `S.overwrites`.
-/

namespace Acsuite

instance instDecEqExcept {ε α : Type} [DecidableEq ε] [DecidableEq α] :
    DecidableEq (Except ε α) := fun x y =>
  match x, y with
  | .ok a, .ok b =>
    if h : a = b then isTrue (by rw [h]) else isFalse (fun hc => h (by injection hc))
  | .error a, .error b =>
    if h : a = b then isTrue (by rw [h]) else isFalse (fun hc => h (by injection hc))
  | .ok _, .error _ => isFalse (fun hc => Except.noConfusion hc)
  | .error _, .ok _ => isFalse (fun hc => Except.noConfusion hc)

/-- A file name.  `manifest` is the fixed name "_acsuite_temp_concat.txt",
`seg k` is "_acsuite_temp_output_{k}<ext>" from `eztrim`'s loop, `tmp k` is
the k-th name handed out by `get_temp_filename` in ffmpeg.py, and `name s`
is an ordinary path. -/
inductive FName
  | name (s : String)
  | manifest
  | seg (k : Nat)
  | tmp (k : Nat)
deriving DecidableEq

/-- The warnings the modelled code can emit via `warnings.warn`. -/
inductive Warn
  | unsupportedExt   -- __init__.py line 121: extension not supported, re-encoding to WAV
  | listOfOne        -- __init__.py line 158: list of one 2-tuple
  | noneNoneSlice    -- __init__.py line 170: None, None slice causes no trimming
  | overlap          -- __init__.py line 364: trims will cause overlapping
deriving DecidableEq

/-- Error kinds.  Each constructor corresponds to one raise site (or Python
built-in failure mode) of the source; the spec's taxonomy names are noted. -/
inductive Err
  | fileNotFound           -- FileNotFoundError (spec: InputNotFound)
  | fileExists             -- FileExistsError, __init__.py line 136 (spec: AlreadyExists)
  | invalidTrim            -- ValueError "slices cannot end with 0", lines 168/184 (spec: InvalidTrim)
  | outOfRange             -- ValueError "... out of bounds", lines 338/348 (spec: OutOfRange)
  | logicErr               -- ValueError "... not logical" lines 196/208; timecode.py line 55 (spec: LogicError)
  | lengthMismatch         -- the spec's LengthMismatch; no raise site in the source produces it
  | indexErr               -- Python IndexError from out-of-bounds list indexing
  | unboundLocal           -- Python UnboundLocalError (a local referenced before assignment)
  | manifestExists         -- ValueError "_acsuite_temp_concat.txt already exists", line 211
  | listLenMismatch        -- ValueError "lists must be same length", line 343
  | tooManyOutputs         -- ValueError "Received too many output filenames!", ffmpeg.py lines 214/347
  | indexSpecifier         -- ValueError "Found an index format specifier ...", ffmpeg.py lines 216/349
  | unsupportedCodec (idx : Int) -- ValueError "Unsupported codec in stream {idx} ...", ffmpeg.py line 162
  | clipRange              -- ValueError "Invalid clip range", ffmpeg.py line 236
  | clipFailed             -- ValueError "Could not clip ...", ffmpeg.py line 246 (spec: ToolkitFailure)
  | concatFailed           -- ValueError "Could not concatenate!", ffmpeg.py line 271 (spec: ToolkitFailure)
deriving DecidableEq

/-- A logged external ffmpeg invocation.  For `eztrim` the `-ss`/`-to`
timestamps are recorded by the frame indices they were computed from
(the claims modelled here only use CFR clips, where `f2ts` is total). -/
inductive Run
  | extract (s e : Int) (out : FName)  -- eztrim lines 198/220: per-trim extraction
  | concatRun (out : FName)            -- eztrim line 227 / ffmpeg.py line 264: concat demuxer
  | clipRun (s e : ℚ) (out : FName)    -- ffmpeg.py line 239: clip_single's extraction
deriving DecidableEq

/-- World state threaded through the models: the filesystem, the log of
external invocations, the warnings emitted, the overwrites of pre-existing
files that occurred, and the temp-name counter. -/
structure S where
  fs : List FName
  runs : List Run
  warns : List Warn
  overwrites : List FName
  ctr : Nat
deriving DecidableEq

/-- Log a `warnings.warn` call. -/
def warnW (w : Warn) (st : S) : S := { st with warns := st.warns ++ [w] }

/-- A file comes into existence (written by `open(..., "w")` or by a
successful ffmpeg invocation).  If it already existed it is overwritten in
place, which is logged. -/
def addFile (f : FName) (st : S) : S :=
  if f ∈ st.fs then { st with overwrites := st.overwrites ++ [f] }
  else { st with fs := f :: st.fs }

/-- `os.remove`: raises FileNotFoundError when the file does not exist. -/
def removeFile (f : FName) (st : S) : Except Err S :=
  if f ∈ st.fs then .ok { st with fs := st.fs.erase f }
  else .error .fileNotFound

/-- `os.rename src dst`: silently replaces an existing `dst` (POSIX). -/
def renameFile (src dst : FName) (st : S) : Except Err S :=
  if src ∈ st.fs then .ok (addFile dst { st with fs := st.fs.erase src })
  else .error .fileNotFound

/-- Perform one external ffmpeg invocation with declared output file `out`:
log it, and create/overwrite `out` iff the oracle grants success to this
(numbered) invocation. -/
def runFF (r : Run) (out : FName) (oracle : Nat → Bool) (st : S) : S :=
  let succeeded := oracle st.runs.length
  let st' := { st with runs := st.runs ++ [r] }
  if succeeded then addFile out st' else st'

/-! ### String utilities (os.path.splitext, str.format field scanning) -/

/-- Index of the last occurrence of `c` in `cs`, if any. -/
def lastIdx (cs : List Char) (c : Char) : Option Nat :=
  cs.enum.foldl (fun acc p => if p.2 = c then some p.1 else acc) none

/-- `os.path.splitext` for POSIX paths: split off the extension at the last
dot of the basename, unless every character of the basename before that dot
is itself a dot (so ".bashrc" has no extension). -/
def splitext (p : String) : String × String :=
  let cs := p.toList
  let sepIdx : Int := match lastIdx cs '/' with | some n => (n : Int) | none => -1
  let dotIdx : Int := match lastIdx cs '.' with | some n => (n : Int) | none => -1
  if sepIdx < dotIdx then
    let nameStart := (sepIdx + 1).toNat
    if ((cs.drop nameStart).take (dotIdx.toNat - nameStart)).any (fun ch => ch != '.') then
      (String.mk (cs.take dotIdx.toNat), String.mk (cs.drop dotIdx.toNat))
    else (p, "")
  else (p, "")

/-- `s.lower().endswith(".mka")` (ASCII lowering suffices for ".mka"). -/
def lowerEndswithMka (s : String) : Bool :=
  (s.toList.map Char.toLower).reverse.take 4 == ['a', 'k', 'm', '.']

def lbrace : Char := Char.ofNat 123

def rbrace : Char := Char.ofNat 125

/-- One-pass scanner for `str.format` templates: outside a replacement
field (`none`) copy literal characters; inside one (`some (nm, pastColon)`)
accumulate the field name up to the format-spec colon, and substitute at
the closing brace.  Unknown fields are substituted empty; the modelled
templates never contain any other field, nor literal (doubled) braces. -/
def fmtGo (filename index : String) : Option (List Char × Bool) → List Char → List Char
  | _, [] => []
  | none, c :: rest =>
    if c = lbrace then fmtGo filename index (some ([], false)) rest
    else c :: fmtGo filename index none rest
  | some (nm, pastColon), c :: rest =>
    if c = rbrace then
      (if String.mk nm = "filename" then filename.toList
       else if String.mk nm = "index" then index.toList else []) ++
        fmtGo filename index none rest
    else if c = ':' then fmtGo filename index (some (nm, true)) rest
    else fmtGo filename index (some (if pastColon then nm else nm ++ [c], pastColon)) rest

/-- `tmpl.format(filename=filename, index=index)`. -/
def applyFmt (filename index : String) (cs : List Char) : List Char :=
  fmtGo filename index none cs

/-- Scanner collecting the field names of a `str.format` template
(`string.Formatter().parse`). -/
def fieldsGo : Option (List Char × Bool) → List Char → List String
  | _, [] => []
  | none, c :: rest =>
    if c = lbrace then fieldsGo (some ([], false)) rest
    else fieldsGo none rest
  | some (nm, pastColon), c :: rest =>
    if c = rbrace then String.mk nm :: fieldsGo none rest
    else if c = ':' then fieldsGo (some (nm, true)) rest
    else fieldsGo (some (if pastColon then nm else nm ++ [c], pastColon)) rest

/-- The field names appearing in a `str.format` template. -/
def fieldNames (cs : List Char) : List String :=
  fieldsGo none cs

/-- `any(name == "index" for _, name, _, _ in string.Formatter().parse(s))`. -/
def hasIndexField (s : String) : Bool :=
  (fieldNames s.toList).contains "index"

/-! ### timecode.py -/

/-- A trim: an optional start and an optional end frame index. -/
abbrev PyTrim := Option Int × Option Int

/-- Python's `round` on an exact rational: round half to even
(used by `round(Fraction)` and, on the represented value, by
`round(float)`). -/
def rndHE (x : ℚ) : ℤ :=
  if x - ⌊x⌋ < 1 / 2 then ⌊x⌋
  else if 1 / 2 < x - ⌊x⌋ then ⌊x⌋ + 1
  else if Even ⌊x⌋ then ⌊x⌋ else ⌊x⌋ + 1

/-- timecode.py line 31 (constant-frame-rate branch of `get_timecodes`):
`[round(float(1e9*f*(1/clip.fps)))/1e9 for f in range(0, clip.num_frames + 1)]`.
Floats are modelled as exact rationals. -/
def get_timecodes_cfr (num_frames : Nat) (fps : ℚ) : List ℚ :=
  (List.range (num_frames + 1)).map
    (fun f : Nat => (rndHE ((10 ^ 9 : ℚ) * (f : ℚ) * (1 / fps)) : ℚ) / 10 ^ 9)

/-- timecode.py line 23 (timecodes-file branch of `get_timecodes`):
`[float(x) / 1000 for x in open(timecodes_file).read().splitlines()[1:]]`.
`file_lines` holds the numeric value of each line of the v2 file (the
header line first); `float(x)` parsing of well-formed lines is abstracted
to the value itself. -/
def get_timecodes_file (file_lines : List ℚ) : List ℚ :=
  (file_lines.drop 1).map (fun x => x / 1000)

/-- Python list indexing `l[i]`: negative indices count from the end, and
an index out of `[-len, len)` raises IndexError. -/
def pyIdx (l : List ℚ) (i : Int) : Except Err ℚ :=
  let j : Int := if i < 0 then i + l.length else i
  if h : 0 ≤ j ∧ j < l.length then
    .ok (l.get ⟨j.toNat, by omega⟩)
  else .error .indexErr

/-- __init__.py lines 259-270, the branch of `f2ts` taken for a VFR clip
with a timecodes file: make the frame index positive by adding
`num_frames`, re-read and re-parse the file with no length validation,
and index the parsed table with the frame number. -/
def f2ts_vfr_file (num_frames : Int) (file_lines : List ℚ) (f0 : Int) : Except Err ℚ :=
  let f := if f0 < 0 then f0 + num_frames else f0
  pyIdx ((file_lines.drop 1).map (fun x => x / 1000)) f

/-- The loop of timecode.py `frames_to_timecodes` (lines 47-58): resolve
None/negative indices against `num_frames`, reject `start >= end`, and look
both frames up in the table (Python list indexing, so a still-negative
start wraps around). -/
def ftt_go (num_frames : Int) (timecodes : List ℚ) : List PyTrim → Except Err (List (ℚ × ℚ))
  | [] => .ok []
  | r :: rest =>
    let start0 : Int := match r.1 with | none => 0 | some x => x
    let start := if start0 < 0 then start0 + num_frames else start0
    let e0 : Int := match r.2 with | none => num_frames | some x => x
    let e := if e0 ≤ 0 then e0 + num_frames else e0
    if e ≤ start then .error .logicErr
    else
      match pyIdx timecodes start, pyIdx timecodes e, ftt_go num_frames timecodes rest with
      | .ok ts, .ok te, .ok tail => .ok ((ts, te) :: tail)
      | .error er, _, _ => .error er
      | _, .error er, _ => .error er
      | _, _, .error er => .error er

/-- timecode.py `frames_to_timecodes` (lines 34-58): a bare tuple is
wrapped in a list, `num_frames` is derived from the table length. -/
def frames_to_timecodes (ranges : Sum PyTrim (List PyTrim)) (timecodes : List ℚ) :
    Except Err (List (ℚ × ℚ)) :=
  let rs := match ranges with | .inl t => [t] | .inr l => l
  ftt_go ((timecodes.length : Int) - 1) timecodes rs

/-! ### __init__.py: trim normalization and ordering -/

/-- __init__.py `_negative_to_positive`, single-trim branch (lines 335-339):
`a, b = (a or 0), (b or 0)`; reject a magnitude above `num_frames`;
`return a if a >= 0 else num_frames + a, b if b > 0 else num_frames + b`. -/
def neg2pos_single (num_frames : Int) (a0 b0 : Option Int) : Except Err (Int × Int) :=
  let a := a0.getD 0
  let b := b0.getD 0
  if num_frames < |a| ∨ num_frames < |b| then .error .outOfRange
  else .ok (if 0 ≤ a then a else num_frames + a, if 0 < b then b else num_frames + b)

/-- __init__.py `_negative_to_positive`, list branch (lines 341-356). -/
def neg2pos_multi (num_frames : Int) (a b : List (Option Int)) :
    Except Err (List Int × List Int) :=
  if a.length ≠ b.length then .error .listLenMismatch
  else
    let real_a := a.map (fun i => i.getD 0)
    let real_b := b.map (fun i => i.getD 0)
    if ¬ ((∀ i ∈ real_a, |i| ≤ num_frames) ∧ (∀ i ∈ real_b, |i| ≤ num_frames)) then
      .error .outOfRange
    else if (∀ i ∈ real_a, 0 ≤ i) ∧ (∀ i ∈ real_b, 0 < i) then
      .ok (real_a, real_b)
    else
      .ok (real_a.map (fun x => if 0 ≤ x then x else num_frames + x),
           real_b.map (fun y => if 0 < y then y else num_frames + y))

/-- __init__.py `_check_ordered` (lines 359-365).  Returns
(return value, whether the overlap advisory was emitted).  Callers always
pass lists of equal length (which line 361's indexing of `ends` by
`range(len(starts))` relies on). -/
def check_ordered (starts ends : List Int) : Bool × Bool :=
  if ¬ (∀ p ∈ starts.zip ends, p.1 < p.2) then (false, false)
  else (true, decide (∃ p ∈ ends.zip starts.tail, p.2 ≤ p.1))

/-! ### __init__.py: eztrim -/

/-- __init__.py `VALID_FFMPEG_EXTENSIONS` (lines 24-42). -/
def VALID_FFMPEG_EXTENSIONS : List String :=
  [".aac", ".m4a", ".adts", ".ac3", ".alac", ".caf", ".dca", ".dts", ".eac3",
   ".flac", ".gsm", ".mlp", ".mp2", ".mp3", ".mpga", ".opus", ".spx", ".ogg",
   ".oga", ".pcm", ".raw", ".sbc", ".thd", ".tta", ".wav", ".w64", ".wma"]

/-- __init__.py lines 115-133: the effective extension and the output path.
Returns (outfile, effective extension, whether the unsupported-extension
warning fired). -/
def resolve_outfile (audio_file : String) (outfile0 : Option String) :
    String × String × Bool :=
  let se := splitext audio_file
  let warned := se.2 ∉ VALID_FFMPEG_EXTENSIONS
  let ext := if warned then ".wav" else se.2
  let out :=
    match outfile0 with
    | none => se.1 ++ "_cut" ++ ext
    | some f =>
      if (splitext f).2 = "" then f ++ ext
      else if (splitext f).2 ≠ ext then (splitext f).1 ++ ext
      else f
  (out, ext, warned)

/-- `trims` as `eztrim` receives them: either one bare 2-tuple or a list
of 2-tuples (the `isinstance` checks on other shapes are covered by
typing). -/
inductive Trims
  | single (t : PyTrim)
  | list (l : List PyTrim)

/-- What `eztrim` returns: the output file name (line 171/203/234; in debug
mode this is the unresolved `outfile` argument) or the debug dict of the
single-trim branch (line 201), recorded by its "s"/"e" entries. -/
inductive EzResult
  | path (s : Option String)
  | dbgDict (s e : Int)
deriving DecidableEq

/-- __init__.py lines 112-151: the non-debug filename checks of `eztrim`.
The audio file must exist, the resolved output must not, and a supplied
timecodes file must exist.  The ffmpeg-binary lookup (lines 139-146) is
modelled as succeeding.  Returns the resolved outfile. -/
def eztrim_checks (audio_file : String) (outfile0 : Option String)
    (timecodes_file : Option String) (st : S) : Except Err (Option String) × S :=
  if FName.name audio_file ∉ st.fs then (.error .fileNotFound, st)
  else
    let r := resolve_outfile audio_file outfile0
    let st := if r.2.2 then warnW .unsupportedExt st else st
    if FName.name r.1 ∈ st.fs then (.error .fileExists, st)
    else
      match timecodes_file with
      | some tf =>
        if FName.name tf ∉ st.fs then (.error .fileNotFound, st) else (.ok (some r.1), st)
      | none => (.ok (some r.1), st)

/-- __init__.py lines 193-203: the single-trim branch of `eztrim`.
Timestamps are recorded by frame index (CFR clips; see `Run.extract`).
ffmpeg writes directly to the output file. -/
def eztrim_single (num_frames : Int) (t : PyTrim) (outfile : Option String)
    (debug : Bool) (oracle : Nat → Bool) (st : S) : Except Err EzResult × S :=
  match neg2pos_single num_frames t.1 t.2 with
  | .error e => (.error e, st)
  | .ok (s, e) =>
    if e ≤ s then (.error .logicErr, st)
    else if debug then (.ok (.dbgDict s e), st)
    else
      let out := FName.name (outfile.getD "")
      let st := runFF (.extract s e out) out oracle st
      (.ok (.path outfile), st)

/-- __init__.py lines 205-234: the multiple-trims branch of `eztrim`.
After normalization, ordering check and the manifest-collision check, the
manifest file is created by `open(..., "w")` (line 213).  The per-trim loop
then evaluates `debug_dict.update(...)` (line 221) on its first iteration —
but `debug_dict` is only ever assigned inside the single-trim branch
(line 197), so a non-empty list of trims raises UnboundLocalError there,
leaving the manifest file on disk; the concatenation and the cleanup of
lines 226-232 are unreachable.  An empty list skips the loop (and its
per-segment extractions) and goes straight to the concat invocation. -/
def eztrim_multi (num_frames : Int) (ts : List PyTrim) (outfile : Option String)
    (oracle : Nat → Bool) (st : S) : Except Err EzResult × S :=
  match neg2pos_multi num_frames (ts.map Prod.fst) (ts.map Prod.snd) with
  | .error e => (.error e, st)
  | .ok (starts, ends) =>
    let co := check_ordered starts ends
    if co.1 = false then (.error .logicErr, st)
    else
      let st := if co.2 then warnW .overlap st else st
      if FName.manifest ∈ st.fs then (.error .manifestExists, st)
      else
        let st := addFile .manifest st
        match ts with
        | [] =>
          let out := FName.name (outfile.getD "")
          let st := runFF (.concatRun out) out oracle st
          match removeFile .manifest st with
          | .ok st' => (.ok (.path outfile), st')
          | .error e => (.error e, st)
        | _ :: _ => (.error .unboundLocal, st)

/-- __init__.py `eztrim` (lines 45-234).  `debug=True` skips the filename
checks of lines 112-151 (leaving `outfile` as passed); the trim-shape
validation of lines 153-184 runs in both modes. -/
def eztrim (num_frames : Int) (trims : Trims) (audio_file : String)
    (outfile0 : Option String) (timecodes_file : Option String) (debug : Bool)
    (oracle : Nat → Bool) (st0 : S) : Except Err EzResult × S :=
  let c : Except Err (Option String) × S :=
    if debug then (.ok outfile0, st0)
    else eztrim_checks audio_file outfile0 timecodes_file st0
  match c with
  | (.error e, st) => (.error e, st)
  | (.ok outfile, st) =>
    match trims with
    | .list [t] =>
      -- lines 157-171: a list of one tuple is converted to the tuple
      let st := warnW .listOfOne st
      if t.2 = some 0 then (.error .invalidTrim, st)
      else if t = (none, none) then (.ok (.path outfile), warnW .noneNoneSlice st)
      else eztrim_single num_frames t outfile debug oracle st
    | .list ts =>
      -- lines 174-184: every list trim's end may not be an explicit 0
      if ∃ p ∈ ts, p.2 = some 0 then (.error .invalidTrim, st)
      else eztrim_multi num_frames ts outfile oracle st
    | .single t => eztrim_single num_frames t outfile debug oracle st

/-! ### ffmpeg.py -/

/-- ffmpeg.py `StreamType` (lines 17-21). -/
inductive StreamType
  | video | audio | subtitle | data
deriving DecidableEq

/-- ffmpeg.py `CompressionType` (lines 24-28). -/
inductive CompressionType
  | lossless | lossy | either | none
deriving DecidableEq

/-- ffmpeg.py `Codec` (lines 31-36). -/
structure Codec where
  stream_type : StreamType
  compression_type : CompressionType
  name : String
  can_decode : Bool
  can_encode : Bool
deriving DecidableEq

/-- ffmpeg.py `AudioStream` (lines 39-42). -/
structure AudioStream where
  codec : Option Codec
  depth : Option Int
  stream_index : Int
deriving DecidableEq

/-- The uncompressed format name `f"pcm_s{depth}le"`. -/
def pcmName (dp : Int) : String := "pcm_s" ++ toString dp ++ "le"

/-- The loop of ffmpeg.py `copy_or_decode` (lines 158-176): per enumerated
stream emit `-c:a:{i}`; raise on an unrecognized codec; `copy` when the
codec can encode; otherwise decode to `pcm_s{depth}le` for depth in
(8, 16, 24, 32, 64), else `pcm_s16le` (also when depth is None).  The
severity-graded logger advisories (lines 168-174) are observational and not
modelled. -/
def cod_go (i : Nat) : List AudioStream → Except Err (List String)
  | [] => .ok []
  | s :: rest =>
    match s.codec with
    | Option.none => .error (.unsupportedCodec s.stream_index)
    | some c =>
      let best :=
        if c.can_encode then "copy"
        else
          match s.depth with
          | some dp =>
            if dp = 8 ∨ dp = 16 ∨ dp = 24 ∨ dp = 32 ∨ dp = 64 then pcmName dp
            else "pcm_s16le"
          | Option.none => "pcm_s16le"
      match cod_go (i + 1) rest with
      | .ok tail => .ok (("-c:a:" ++ toString i) :: best :: tail)
      | .error e => .error e

/-- ffmpeg.py `FFmpegAudio.copy_or_decode` (lines 149-178). -/
def copy_or_decode (streams : List AudioStream) : Except Err (List String) :=
  cod_go 0 streams

/-- ffmpeg.py `FFmpegAudio.clip_single` (lines 224-247): reject an invalid
range, draw a fresh temp name, resolve codecs (a ValueError from
`copy_or_decode` propagates before any file is created), then run ffmpeg
with `-y`; on `CalledProcessError` remove the output if it exists (a failed
run is modelled as creating no file) and raise.  The `map_streams` call is
for a single brace-free temp output and cannot fail. -/
def clip_single (filename : FName) (s e : ℚ) (streams : List AudioStream)
    (oracle : Nat → Bool) (st : S) : Except Err FName × S :=
  if e ≤ s ∨ s < 0 then (.error .clipRange, st)
  else
    let out := FName.tmp st.ctr
    let st := { st with ctr := st.ctr + 1 }
    match copy_or_decode streams with
    | .error er => (.error er, st)
    | .ok _ =>
      let succeeded := oracle st.runs.length
      let st := { st with runs := st.runs ++ [.clipRun s e out] }
      if succeeded then (.ok out, addFile out st)
      else (.error .clipFailed, st)

/-- ffmpeg.py `FFmpegAudio.concat` (lines 249-273): draw temp names for the
manifest and the output, write the manifest (its `file '...'` lines and
their quote-escaping are not modelled), run ffmpeg with `-y`; on failure
remove the manifest and the output if present, and raise; on success remove
the manifest. -/
def concatModel (files : List FName) (oracle : Nat → Bool) (st : S) :
    Except Err FName × S :=
  let cf := FName.tmp st.ctr
  let out := FName.tmp (st.ctr + 1)
  let st := { st with ctr := st.ctr + 2 }
  let st := addFile cf st
  let succeeded := oracle st.runs.length
  let st := { st with runs := st.runs ++ [.concatRun out] }
  if succeeded then
    let st := addFile out st
    match removeFile cf st with
    | .ok st' => (.ok out, st')
    | .error er => (.error er, st)
  else
    match removeFile cf st with
    | .ok st' => (.error .concatFailed, st')
    | .error er => (.error er, st)

/-- ffmpeg.py `recut` lines 346-350, the `combine` branch: at most one
output name, no `index` format specifier, then
`os.rename(clipped, outfile[0].format(filename=filename))`. -/
def recut_rename (outfile : List String) (filename : String) (clipped : FName)
    (st : S) : Except Err Unit × S :=
  if 1 < outfile.length then (.error .tooManyOutputs, st)
  else
    match outfile.get? 0 with
    | none => (.error .indexErr, st)
    | some o0 =>
      if hasIndexField o0 then (.error .indexSpecifier, st)
      else
        match renameFile clipped (.name (String.mk (applyFmt filename "" o0.toList))) st with
        | .ok st' => (.ok (), st')
        | .error e => (.error e, st)

/-- ffmpeg.py `recut` lines 330-335: the clip loop, kept as a plain loop so
that the partials list survives for cleanup. -/
def clipLoop (filename : FName) (streams : List AudioStream) (oracle : Nat → Bool) :
    List (ℚ × ℚ) → List FName → S → Except Err Unit × List FName × S
  | [], acc, st => (.ok (), acc, st)
  | r :: rest, acc, st =>
    match clip_single filename r.1 r.2 streams oracle st with
    | (.ok f, st') => clipLoop filename streams oracle rest (acc ++ [f]) st'
    | (.error e, st') => (.error e, acc, st')

/-- ffmpeg.py `FFmpegAudio.recut` (lines 308-356), modelled at its default
`combine=True` (so the `split` fan-out branch of lines 341-344 is never
taken).  The try-body extracts every range, concatenates when there is more
than one range (`partials[0]` raises IndexError on an empty list), then
renames into place.  The `finally` block removes every partial that is
still a file, and then evaluates `os.path.isfile(clipped)` — when the body
failed before `clipped` was assigned this raises UnboundLocalError, which
replaces the body's exception (the partials have been removed by then).
On success the formatted output names are returned (line 356; a template
that survived the `hasIndexField` check never uses the `index` value, whose
Python rendering of the stream tuple is abbreviated here). -/
def recut (filename : String) (ranges : List (ℚ × ℚ)) (streams : List AudioStream)
    (outfile0 : List String) (oracle : Nat → Bool) (st0 : S) :
    Except Err (List String) × S :=
  let outfile := outfile0.map (fun o => if lowerEndswithMka o then o else o ++ ".mka")
  let lr := clipLoop (.name filename) streams oracle ranges [] st0
  let body : Except Err Unit × Option FName × S :=
    match lr with
    | (.error e, _, st) => (.error e, none, st)
    | (.ok _, partials, st) =>
      if 1 < ranges.length then
        match concatModel partials oracle st with
        | (.ok c, st') =>
          match recut_rename outfile filename c st' with
          | (.ok _, st2) => (.ok (), some c, st2)
          | (.error e, st2) => (.error e, some c, st2)
        | (.error e, st') => (.error e, none, st')
      else
        match partials.get? 0 with
        | some c =>
          match recut_rename outfile filename c st with
          | (.ok _, st2) => (.ok (), some c, st2)
          | (.error e, st2) => (.error e, some c, st2)
        | none => (.error .indexErr, none, st)
  let partials := lr.2.1
  let st := body.2.2
  let st := partials.foldl
    (fun acc p => if p ∈ acc.fs then { acc with fs := acc.fs.erase p } else acc) st
  match body.2.1 with
  | none => (.error .unboundLocal, st)
  | some c =>
    let st := if c ∈ st.fs then { st with fs := st.fs.erase c } else st
    match body.1 with
    | .error e => (.error e, st)
    | .ok _ => (.ok ((outfile.zip streams).map
        (fun p => String.mk (applyFmt filename (toString p.2.stream_index) p.1.toList))), st)

/-! ### Claim-side reference definitions

These follow the wording of the (amended) claims and are compared with the
definitions above, which follow the source. -/

/-- Normalization of a start index as the claim describes it: a `None`
start becomes 0, a negative start becomes `num_frames + start`. -/
def specStart (num_frames : Int) (a : Option Int) : Int :=
  let x := a.getD 0
  if x < 0 then num_frames + x else x

/-- Normalization of an end index as the amended claim describes it: a
non-positive end (with `None` read as 0, so in particular both `None` and
an explicit 0) becomes `num_frames + end`; a positive end is unchanged. -/
def specEnd (num_frames : Int) (b : Option Int) : Int :=
  let x := b.getD 0
  if x ≤ 0 then num_frames + x else x

/-- The decode-fallback format of the claim: `pcm_s{depth}le` when the
stream's bit depth is one of 8, 16, 24, 32, 64, else the 16-bit default
(also when the depth is unknown). -/
def pcmFallback : Option Int → String
  | some dp =>
    if dp = 8 ∨ dp = 16 ∨ dp = 24 ∨ dp = 32 ∨ dp = 64 then pcmName dp
    else "pcm_s16le"
  | none => "pcm_s16le"

/-- The per-stream codec directive of the claim: no recognized codec is an
error; a codec that can encode is stream-copied; otherwise decode to the
`pcmFallback` format. -/
def directive (s : AudioStream) : Except Err String :=
  match s.codec with
  | none => .error (.unsupportedCodec s.stream_index)
  | some c => .ok (if c.can_encode then "copy" else pcmFallback s.depth)

/-- Codec resolution as the claim describes it: each enumerated stream
contributes its `-c:a:{i}` label and its `directive`; the first failing
stream aborts the whole resolution. -/
def glue (i : Nat) : List AudioStream → Except Err (List String)
  | [] => .ok []
  | s :: rest =>
    match directive s, glue (i + 1) rest with
    | .ok d, .ok tail => .ok (("-c:a:" ++ toString i) :: d :: tail)
    | .error e, _ => .error e
    | .ok _, .error e => .error e

/-- The output path of `eztrim` as the amended claim describes it, in terms
of the effective extension (the audio file's extension, or ".wav" when that
extension is unsupported): no outfile gives `<stem>_cut<effective ext>`; an
outfile without extension gets the effective extension appended; an outfile
whose extension already is the effective one is kept; any other extension
is replaced by the effective one. -/
def spec_outfile (audio_file : String) (outfile0 : Option String) : String :=
  let stem := (splitext audio_file).1
  let effExt :=
    if (splitext audio_file).2 ∈ VALID_FFMPEG_EXTENSIONS then (splitext audio_file).2
    else ".wav"
  match outfile0 with
  | none => stem ++ "_cut" ++ effExt
  | some f =>
    if (splitext f).2 = "" then f ++ effExt
    else if (splitext f).2 = effExt then f
    else (splitext f).1 ++ effExt

/-! ## Helper lemmas -/

@[simp] theorem warnW_fs (w : Warn) (st : S) : (warnW w st).fs = st.fs := rfl

@[simp] theorem warnW_runs (w : Warn) (st : S) : (warnW w st).runs = st.runs := rfl

@[simp] theorem addFile_runs (f : FName) (st : S) : (addFile f st).runs = st.runs := by
  unfold addFile; split <;> rfl

@[simp] theorem addFile_warns (f : FName) (st : S) : (addFile f st).warns = st.warns := by
  unfold addFile; split <;> rfl

@[simp] theorem runFF_runs (r : Run) (out : FName) (oracle : Nat → Bool) (st : S) :
    (runFF r out oracle st).runs = st.runs ++ [r] := by
  simp only [runFF]
  split
  · rw [addFile_runs]
  · rfl

theorem ite_state_fs (c : Prop) [Decidable c] (f : S → S) (st : S)
    (h : (f st).fs = st.fs) : (if c then f st else st).fs = st.fs := by
  split <;> simp [h]

theorem ite_state_runs (c : Prop) [Decidable c] (f : S → S) (st : S)
    (h : (f st).runs = st.runs) : (if c then f st else st).runs = st.runs := by
  split <;> simp [h]

/-! ### Properties of half-to-even rounding -/

theorem rndHE_bounds (x : ℚ) : x - 1 / 2 ≤ (rndHE x : ℚ) ∧ (rndHE x : ℚ) ≤ x + 1 / 2 := by
  have h1 := Int.floor_le x
  have h2 := Int.lt_floor_add_one x
  by_cases hA : x - ⌊x⌋ < 1 / 2
  · rw [rndHE, if_pos hA]
    constructor <;> linarith
  · rw [not_lt] at hA
    by_cases hB : 1 / 2 < x - ⌊x⌋
    · rw [rndHE, if_neg (by rw [not_lt]; linarith), if_pos hB]
      push_cast
      constructor <;> linarith
    · rw [not_lt] at hB
      by_cases hC : Even ⌊x⌋
      · rw [rndHE, if_neg (by rw [not_lt]; linarith), if_neg (by rw [not_lt]; linarith),
          if_pos hC]
        constructor <;> linarith
      · rw [rndHE, if_neg (by rw [not_lt]; linarith), if_neg (by rw [not_lt]; linarith),
          if_neg hC]
        push_cast
        constructor <;> linarith

theorem rndHE_mono {x y : ℚ} (h : x ≤ y) : rndHE x ≤ rndHE y := by
  by_contra hc
  rw [not_le] at hc
  have hx := (rndHE_bounds x).2
  have hy := (rndHE_bounds y).1
  have hstep : (rndHE y : ℚ) + 1 ≤ (rndHE x : ℚ) := by
    exact_mod_cast Int.add_one_le_iff.mpr hc
  have hxy : x = y := by linarith
  rw [hxy] at hc
  exact lt_irrefl _ hc

theorem rndHE_zero : rndHE 0 = 0 := by norm_num [rndHE]

/-! ### List index utilities -/

theorem zip_get?_eq_some {α β : Type} {l₁ : List α} {l₂ : List β} {i : Nat} {p : α × β} :
    (l₁.zip l₂).get? i = some p ↔ l₁.get? i = some p.1 ∧ l₂.get? i = some p.2 := by
  induction l₁ generalizing l₂ i with
  | nil => simp
  | cons a as ih =>
    cases l₂ with
    | nil => simp
    | cons b bs =>
      cases i with
      | zero =>
        simp [List.zip_cons_cons, Prod.ext_iff]
      | succ n =>
        simp only [List.zip_cons_cons, List.get?]
        exact ih

theorem tail_get? {α : Type} (l : List α) (i : Nat) : l.tail.get? i = l.get? (i + 1) := by
  cases l <;> simp

/-! ### Characterization of `_negative_to_positive` -/

theorem specStart_some (N x : Int) :
    (if 0 ≤ x then x else N + x) = specStart N (some x) := by
  simp only [specStart, Option.getD_some]
  split <;> split <;> omega

theorem specEnd_some (N x : Int) :
    (if 0 < x then x else N + x) = specEnd N (some x) := by
  simp only [specEnd, Option.getD_some]
  split <;> split <;> omega

theorem specStart_getD (N : Int) (a : Option Int) :
    (if 0 ≤ a.getD 0 then a.getD 0 else N + a.getD 0) = specStart N a := by
  simp only [specStart]
  split <;> split <;> omega

theorem specEnd_getD (N : Int) (b : Option Int) :
    (if 0 < b.getD 0 then b.getD 0 else N + b.getD 0) = specEnd N b := by
  simp only [specEnd]
  split <;> split <;> omega

theorem neg2pos_single_eq (N : Int) (a b : Option Int)
    (ha : |a.getD 0| ≤ N) (hb : |b.getD 0| ≤ N) :
    neg2pos_single N a b = .ok (specStart N a, specEnd N b) := by
  unfold neg2pos_single
  rw [if_neg (by push_neg; exact ⟨ha, hb⟩)]
  rw [specStart_getD, specEnd_getD]

theorem neg2pos_multi_eq (N : Int) (a b : List (Option Int))
    (hlen : a.length = b.length)
    (ha : ∀ x ∈ a, |x.getD 0| ≤ N) (hb : ∀ x ∈ b, |x.getD 0| ≤ N) :
    neg2pos_multi N a b = .ok (a.map (specStart N), b.map (specEnd N)) := by
  unfold neg2pos_multi
  rw [if_neg (by simpa using hlen)]
  rw [if_neg (by
    push_neg
    constructor
    · intro x hx
      rw [List.mem_map] at hx
      obtain ⟨y, hy, rfl⟩ := hx
      exact ha y hy
    · intro x hx
      rw [List.mem_map] at hx
      obtain ⟨y, hy, rfl⟩ := hx
      exact hb y hy)]
  split
  · next h =>
    obtain ⟨h1, h2⟩ := h
    refine congrArg Except.ok ?_
    rw [Prod.mk.injEq]
    constructor
    · apply List.map_congr_left
      intro x hx
      have hge := h1 _ (List.mem_map_of_mem _ hx)
      rw [← specStart_getD N x, if_pos hge]
    · apply List.map_congr_left
      intro x hx
      have hgt := h2 _ (List.mem_map_of_mem _ hx)
      rw [← specEnd_getD N x, if_pos hgt]
  · refine congrArg Except.ok ?_
    rw [Prod.mk.injEq]
    constructor
    · rw [List.map_map]
      apply List.map_congr_left
      intro x _
      simp only [Function.comp_apply]
      rw [specStart_getD]
    · rw [List.map_map]
      apply List.map_congr_left
      intro x _
      simp only [Function.comp_apply]
      rw [specEnd_getD]

/-! ### Codec resolution: source vs claim-side description -/

theorem cod_go_eq_glue (i : Nat) (l : List AudioStream) : cod_go i l = glue i l := by
  induction l generalizing i with
  | nil => rfl
  | cons s rest ih =>
    simp only [cod_go, glue, directive, ← ih (i + 1)]
    cases hc : s.codec with
    | none => rfl
    | some c =>
      cases hd : s.depth with
      | none => cases cod_go (i + 1) rest <;> rfl
      | some dp => cases cod_go (i + 1) rest <;> rfl

/-! ### Unfolding `eztrim` under passing filename checks -/

theorem eztrim_checks_ok (audio : String) (out0 : Option String) (st : S)
    (h1 : FName.name audio ∈ st.fs)
    (h2 : FName.name (resolve_outfile audio out0).1 ∉ st.fs) :
    eztrim_checks audio out0 none st =
      (.ok (some (resolve_outfile audio out0).1),
       if (resolve_outfile audio out0).2.2 then warnW .unsupportedExt st else st) := by
  simp only [eztrim_checks]
  rw [if_neg (not_not_intro h1)]
  rw [if_neg (by rw [ite_state_fs _ _ _ (warnW_fs _ _)]; exact h2)]

theorem eztrim_checks_outfile_exists (audio : String) (out0 : Option String)
    (tf : Option String) (st : S)
    (h1 : FName.name audio ∈ st.fs)
    (h2 : FName.name (resolve_outfile audio out0).1 ∈ st.fs) :
    eztrim_checks audio out0 tf st =
      (.error .fileExists,
       if (resolve_outfile audio out0).2.2 then warnW .unsupportedExt st else st) := by
  simp only [eztrim_checks]
  rw [if_neg (not_not_intro h1)]
  rw [if_pos (by rw [ite_state_fs _ _ _ (warnW_fs _ _)]; exact h2)]

theorem eztrim_nodebug (N : Int) (trims : Trims) (audio : String) (out0 : Option String)
    (oracle : Nat → Bool) (st : S)
    (h1 : FName.name audio ∈ st.fs)
    (h2 : FName.name (resolve_outfile audio out0).1 ∉ st.fs) :
    eztrim N trims audio out0 none false oracle st =
      (match trims with
       | .list [t] =>
         let st1 := warnW .listOfOne
           (if (resolve_outfile audio out0).2.2 then warnW .unsupportedExt st else st)
         if t.2 = some 0 then (.error .invalidTrim, st1)
         else if t = (none, none) then
           (.ok (.path (some (resolve_outfile audio out0).1)), warnW .noneNoneSlice st1)
         else eztrim_single N t (some (resolve_outfile audio out0).1) false oracle st1
       | .list ts =>
         if ∃ p ∈ ts, p.2 = some 0 then
           (.error .invalidTrim,
            if (resolve_outfile audio out0).2.2 then warnW .unsupportedExt st else st)
         else eztrim_multi N ts (some (resolve_outfile audio out0).1) oracle
           (if (resolve_outfile audio out0).2.2 then warnW .unsupportedExt st else st)
       | .single t =>
         eztrim_single N t (some (resolve_outfile audio out0).1) false oracle
           (if (resolve_outfile audio out0).2.2 then warnW .unsupportedExt st else st)) := by
  simp only [eztrim]
  rw [if_neg (by simp)]
  rw [eztrim_checks_ok audio out0 st h1 h2]

/-! ### `_negative_to_positive`: bounds of successful results -/

theorem neg2pos_single_ok_bounds (N : Int) (a b : Option Int) (s e : Int)
    (h : neg2pos_single N a b = .ok (s, e)) : 0 ≤ s ∧ e ≤ N := by
  simp only [neg2pos_single] at h
  split at h
  · exact absurd h (by simp)
  · next hcond =>
    push_neg at hcond
    obtain ⟨hA, hB⟩ := hcond
    rw [abs_le] at hA hB
    obtain ⟨hA1, hA2⟩ := hA
    obtain ⟨hB1, hB2⟩ := hB
    injection h with h
    obtain ⟨hs, he⟩ := (Prod.mk.injEq _ _ _ _).mp h
    rw [← hs, ← he]
    constructor
    · split <;> omega
    · split <;> omega

theorem neg2pos_single_oob (N : Int) (a b : Option Int)
    (h : N < |a.getD 0| ∨ N < |b.getD 0|) :
    neg2pos_single N a b = .error .outOfRange := by
  simp only [neg2pos_single]
  rw [if_pos h]

theorem pyIdx_cases (l : List ℚ) (i : Int) :
    pyIdx l i = .error .indexErr ∨ ∃ q, pyIdx l i = .ok q := by
  simp only [pyIdx]
  by_cases h : 0 ≤ (if i < 0 then i + (l.length : Int) else i) ∧
      (if i < 0 then i + (l.length : Int) else i) < (l.length : Int)
  · right
    exact ⟨_, dif_pos h⟩
  · left
    exact dif_neg h

theorem neg2pos_multi_oob (N : Int) (a b : List (Option Int))
    (hlen : a.length = b.length)
    (h : (∃ x ∈ a, N < |x.getD 0|) ∨ (∃ x ∈ b, N < |x.getD 0|)) :
    neg2pos_multi N a b = .error .outOfRange := by
  simp only [neg2pos_multi]
  rw [if_neg (by simpa using hlen)]
  rw [if_pos (by
    rintro ⟨hA, hB⟩
    rcases h with ⟨x, hx, hgt⟩ | ⟨y, hy, hgt⟩
    · exact absurd (hA _ (List.mem_map_of_mem _ hx)) (not_le.mpr hgt)
    · exact absurd (hB _ (List.mem_map_of_mem _ hy)) (not_le.mpr hgt))]

theorem neg2pos_multi_ok_bounds (N : Int) (a b : List (Option Int)) (ss es : List Int)
    (h : neg2pos_multi N a b = .ok (ss, es)) :
    (∀ s ∈ ss, 0 ≤ s ∧ s ≤ N) ∧ (∀ e ∈ es, e ≤ N) := by
  simp only [neg2pos_multi] at h
  split at h
  · exact absurd h (by simp)
  · split at h
    · exact absurd h (by simp)
    · next hbound =>
      rw [not_not] at hbound
      obtain ⟨hA, hB⟩ := hbound
      split at h
      · next hpos =>
        obtain ⟨hposA, hposB⟩ := hpos
        injection h with h
        obtain ⟨hss, hes⟩ := (Prod.mk.injEq _ _ _ _).mp h
        rw [← hss, ← hes]
        constructor
        · intro s hs
          have h1 := hA s hs
          rw [abs_le] at h1
          exact ⟨hposA s hs, h1.2⟩
        · intro e he
          have h1 := hB e he
          rw [abs_le] at h1
          exact h1.2
      · injection h with h
        obtain ⟨hss, hes⟩ := (Prod.mk.injEq _ _ _ _).mp h
        rw [← hss, ← hes]
        constructor
        · intro s hs
          rw [List.mem_map] at hs
          obtain ⟨x, hx, rfl⟩ := hs
          have h1 := hA x hx
          rw [abs_le] at h1
          constructor
          · split <;> omega
          · split <;> omega
        · intro e he
          rw [List.mem_map] at he
          obtain ⟨y, hy, rfl⟩ := he
          have h1 := hB y hy
          rw [abs_le] at h1
          split <;> omega

/-! ## Claims -/

/-- C1: refuted by the code (code bug).  Calling `eztrim` with the
multiple-trims list `[(0, 1), (2, 3)]` on a 10-frame clip creates the
manifest file "_acsuite_temp_concat.txt" (line 213) and then raises
UnboundLocalError — line 221 references `debug_dict`, which is assigned
only in the single-trim branch (line 197) — leaving the manifest on disk.
So there is an exit path of a top-level trimming operation on which a
temporary file it created remains, contradicting the cleanup invariant
(the cleanup of lines 226-232 is unreachable for a non-empty trim list). -/
theorem c1_eztrim_multi_leaves_manifest :
    eztrim 10 (.list [(some 0, some 1), (some 2, some 3)]) "a.wav" none none false
        (fun _ => true) ⟨[.name "a.wav"], [], [], [], 0⟩ =
      (.error .unboundLocal, ⟨[.manifest, .name "a.wav"], [], [], [], 0⟩) ∧
    FName.manifest ∈
      (eztrim 10 (.list [(some 0, some 1), (some 2, some 3)]) "a.wav" none none false
        (fun _ => true) ⟨[.name "a.wav"], [], [], [], 0⟩).2.fs := by
  constructor <;> decide

/-- C4: refuted by the code (code bug).  No length validation of an
external timecodes file exists anywhere: `get_timecodes`/`f2ts` parse the
file and use it directly.  For a 10-frame clip and a v2 file with a header
plus only 5 entries, the parsed table has length 5 (not 11) with no
comparison against the clip, frame 8 hits an out-of-bounds IndexError (not
the claimed LengthMismatch), and an in-range frame silently uses the
mismatched table.  Moreover `f2ts`'s lookup can only succeed or raise
IndexError — no execution produces a LengthMismatch failure. -/
theorem c4_no_length_validation :
    f2ts_vfr_file 10 ((List.range 6).map fun i => (i : ℚ)) 8 = .error .indexErr ∧
    (get_timecodes_file ((List.range 6).map fun i => (i : ℚ))).length = 5 ∧
    f2ts_vfr_file 10 [(0 : ℚ), 1000, 2000, 3000, 4000, 5000] 2 = .ok 3 ∧
    (∀ (N : Int) (lines : List ℚ) (f : Int),
      f2ts_vfr_file N lines f = .error .indexErr ∨ ∃ q, f2ts_vfr_file N lines f = .ok q) := by
  refine ⟨by decide, by decide, ?_, ?_⟩
  · simp only [f2ts_vfr_file, pyIdx]
    rw [dif_pos (by norm_num)]
    norm_num
    rfl
  · intro N lines f
    exact pyIdx_cases _ _

/-- C5 counterexample: an explicit non-negative end index 0 is *not*
unchanged by `_negative_to_positive`: on a bare trim `(3, 0)` with 100
frames it yields `(3, 100)` — the end 0 is treated like `None` and resolves
to `num_frames`, not to 0 as the claim's "non-negative end is unchanged"
predicts. -/
theorem c5_zero_end_changed :
    neg2pos_single 100 (some 3) (some 0) = .ok (3, 100) ∧
    ¬ neg2pos_single 100 (some 3) (some 0) = .ok (3, 0) := by
  constructor <;> decide

/-- C5 amended: trim normalization resolves a `None` start to 0, a negative
start to `num_frames + start`, a `None` end to `num_frames`, a *positive*
end unchanged, and a non-positive end (an explicit 0 or a negative value)
to `num_frames + end` — as `specStart`/`specEnd` describe — for both the
single-trim and the list branches of `_negative_to_positive`, whenever the
magnitudes are in range; `(None, None)` on any N ≥ 0 yields `(0, N)`,
`(-1, None)` on N = 10 yields `(9, 10)`, and the 100-frame scenario list
normalizes as the claim states and passes the ordering check with no
overlap advisory. -/
theorem c5_amended_normalization :
    (∀ (N : Int) (a b : Option Int), |a.getD 0| ≤ N → |b.getD 0| ≤ N →
      neg2pos_single N a b = .ok (specStart N a, specEnd N b)) ∧
    (∀ (N : Int) (la lb : List (Option Int)), la.length = lb.length →
      (∀ x ∈ la, |x.getD 0| ≤ N) → (∀ x ∈ lb, |x.getD 0| ≤ N) →
      neg2pos_multi N la lb = .ok (la.map (specStart N), lb.map (specEnd N))) ∧
    (∀ N : Int, 0 ≤ N → neg2pos_single N none none = .ok (0, N)) ∧
    neg2pos_single 10 (some (-1)) none = .ok (9, 10) ∧
    (neg2pos_multi 100 [some 3, some 23, some 48, some 50, some (-10), some 97]
        [some 22, some 40, some 49, some (-20), some (-5), none] =
      .ok ([3, 23, 48, 50, 90, 97], [22, 40, 49, 80, 95, 100])) ∧
    check_ordered [3, 23, 48, 50, 90, 97] [22, 40, 49, 80, 95, 100] = (true, false) := by
  refine ⟨fun N a b ha hb => neg2pos_single_eq N a b ha hb,
          fun N la lb hl ha hb => neg2pos_multi_eq N la lb hl ha hb,
          ?_, by decide, by decide, by decide⟩
  intro N hN
  have h := neg2pos_single_eq N none none (by simpa using hN) (by simpa using hN)
  rw [h]
  norm_num [specStart, specEnd]

/-- C5 witness: the amended normalization theorem applied at concrete
inputs, with its magnitude and length hypotheses discharged. -/
theorem c5_amended_witness :
    neg2pos_single 10 (some 2) (some (-3)) =
      .ok (specStart 10 (some 2), specEnd 10 (some (-3))) ∧
    neg2pos_multi 10 [some 1] [(none : Option Int)] =
      .ok ([some 1].map (specStart 10), [(none : Option Int)].map (specEnd 10)) ∧
    neg2pos_single 7 none none = .ok (0, 7) :=
  ⟨c5_amended_normalization.1 10 (some 2) (some (-3)) (by decide) (by decide),
   c5_amended_normalization.2.1 10 [some 1] [(none : Option Int)] rfl (by decide) (by decide),
   c5_amended_normalization.2.2.1 7 (by decide)⟩

/-- C2 counterexample: an explicit end index 0 is not always rejected.
`frames_to_timecodes` resolves a bare trim `(3, 0)` against an 11-entry
table (10 frames) to the range `(table[3], table[10])` and succeeds — no
InvalidTrim error is raised for the explicit end 0. -/
theorem c2_end_zero_not_rejected :
    frames_to_timecodes (.inl (some 3, some 0)) ((List.range 11).map fun i => (i : ℚ)) =
      .ok [((3 : ℚ), (10 : ℚ))] := by
  decide

/-- C2 amended: in `eztrim`'s list path an explicit end 0 raises the
InvalidTrim error (in `_negative_to_positive` itself and in
`frames_to_timecodes` an explicit end 0 instead resolves to `num_frames`,
like `None`, so a bare tuple trim such as (3, 0) succeeds and extracts
(3, num_frames)); a raw index whose magnitude exceeds `num_frames` raises
the OutOfRange error in both branches of `_negative_to_positive` (while
`frames_to_timecodes` has no magnitude check and silently wraps); a
resolved trim with `end <= start` makes `eztrim` raise the LogicError in
both the single-trim and the multi-trim path; and every trim either branch
of `_negative_to_positive` produces that passes the `start < end` check
satisfies `0 ≤ start < end ≤ num_frames`. -/
theorem c2_amended_trim_validation :
    (∀ (N : Int) (ts : List PyTrim) (audio : String) (out0 : Option String)
       (oracle : Nat → Bool) (st : S),
      FName.name audio ∈ st.fs →
      FName.name (resolve_outfile audio out0).1 ∉ st.fs →
      (∃ p ∈ ts, p.2 = some 0) →
      (eztrim N (.list ts) audio out0 none false oracle st).1 = .error .invalidTrim) ∧
    (∀ (N : Int) (a b : Option Int), N < |a.getD 0| ∨ N < |b.getD 0| →
      neg2pos_single N a b = .error .outOfRange) ∧
    (∀ (N : Int) (a b : Option Int) (s e : Int),
      neg2pos_single N a b = .ok (s, e) → s < e → 0 ≤ s ∧ s < e ∧ e ≤ N) ∧
    (∀ (N : Int) (t : PyTrim) (audio : String) (out0 : Option String)
       (oracle : Nat → Bool) (st : S) (s e : Int),
      FName.name audio ∈ st.fs →
      FName.name (resolve_outfile audio out0).1 ∉ st.fs →
      neg2pos_single N t.1 t.2 = .ok (s, e) → e ≤ s →
      (eztrim N (.single t) audio out0 none false oracle st).1 = .error .logicErr) ∧
    (∀ (N : Int) (a : Option Int), |a.getD 0| ≤ N → 0 ≤ N →
      neg2pos_single N a (some 0) = .ok (specStart N a, N)) ∧
    ((eztrim 100 (.single (some 3, some 0)) "a.wav" none none false (fun _ => true)
        ⟨[.name "a.wav"], [], [], [], 0⟩).1 = .ok (.path (some "a_cut.wav")) ∧
     (eztrim 100 (.single (some 3, some 0)) "a.wav" none none false (fun _ => true)
        ⟨[.name "a.wav"], [], [], [], 0⟩).2.runs =
       [.extract 3 100 (.name "a_cut.wav")]) ∧
    (∀ (N : Int) (la lb : List (Option Int)), la.length = lb.length →
      (∃ x ∈ la, N < |x.getD 0|) ∨ (∃ x ∈ lb, N < |x.getD 0|) →
      neg2pos_multi N la lb = .error .outOfRange) ∧
    (∀ (N : Int) (la lb : List (Option Int)) (ss es : List Int),
      neg2pos_multi N la lb = .ok (ss, es) →
      ∀ (i : Nat) (s e : Int), ss.get? i = some s → es.get? i = some e → s < e →
        0 ≤ s ∧ s < e ∧ e ≤ N) ∧
    (∀ (N : Int) (t1 t2 : PyTrim) (rest : List PyTrim) (audio : String)
       (out0 : Option String) (oracle : Nat → Bool) (st : S) (ss es : List Int),
      FName.name audio ∈ st.fs →
      FName.name (resolve_outfile audio out0).1 ∉ st.fs →
      (∀ p ∈ t1 :: t2 :: rest, ¬ p.2 = some 0) →
      neg2pos_multi N ((t1 :: t2 :: rest).map Prod.fst)
          ((t1 :: t2 :: rest).map Prod.snd) = .ok (ss, es) →
      ¬ (∀ p ∈ ss.zip es, p.1 < p.2) →
      (eztrim N (.list (t1 :: t2 :: rest)) audio out0 none false oracle st).1 =
        .error .logicErr) ∧
    frames_to_timecodes (.inl (some (-15), some 5)) ((List.range 11).map fun i => (i : ℚ)) =
      .ok [((6 : ℚ), (5 : ℚ))] := by
  refine ⟨?_, fun N a b h => neg2pos_single_oob N a b h, ?_, ?_, ?_,
    ⟨by decide, by decide⟩, fun N la lb hl h => neg2pos_multi_oob N la lb hl h, ?_, ?_,
    by decide⟩
  · intro N ts audio out0 oracle st h1 h2 hz
    rw [eztrim_nodebug N (.list ts) audio out0 oracle st h1 h2]
    match ts, hz with
    | [t1], hz =>
      have ht : t1.2 = some 0 := by simpa using hz
      simp [ht]
    | t1 :: t2 :: rest, hz =>
      simp only []
      rw [if_pos hz]
  · intro N a b s e h hse
    have := neg2pos_single_ok_bounds N a b s e h
    exact ⟨this.1, hse, this.2⟩
  · intro N t audio out0 oracle st s e h1 h2 hok hle
    rw [eztrim_nodebug N (.single t) audio out0 oracle st h1 h2]
    simp only [eztrim_single, hok]
    rw [if_pos hle]
  · intro N a ha hN
    have h := neg2pos_single_eq N a (some 0) ha (by simpa using hN)
    rw [h]
    norm_num [specEnd]
  · intro N la lb ss es h i s e hs he hse
    have hb := neg2pos_multi_ok_bounds N la lb ss es h
    have hsmem := List.get?_mem hs
    have hemem := List.get?_mem he
    exact ⟨(hb.1 s hsmem).1, hse, hb.2 e hemem⟩
  · intro N t1 t2 rest audio out0 oracle st ss es h1 h2 hno hmulti hnot
    rw [eztrim_nodebug N _ audio out0 oracle st h1 h2]
    simp only []
    rw [if_neg (by push_neg; exact hno)]
    have hco : check_ordered ss es = (false, false) := by
      unfold check_ordered
      rw [if_pos hnot]
    simp only [eztrim_multi, hmulti, hco]
    simp

/-- C2 witness: the amended validation theorem applied at concrete inputs:
a list containing an explicit end 0 raises InvalidTrim; an out-of-range
magnitude raises OutOfRange in the single-trim branch and in the list
branch; successful resolutions of both branches are within bounds; a
resolved pair with `end ≤ start` raises LogicError in the single-trim path
and in the multi-trim path; and an explicit end 0 on a bare trim resolves
to `num_frames`. -/
theorem c2_amended_witness :
    (eztrim 10 (.list [(some 1, some 0), (some 2, some 3)]) "a.wav" none none false
        (fun _ => true) ⟨[.name "a.wav"], [], [], [], 0⟩).1 = .error .invalidTrim ∧
    neg2pos_single 10 (some 25) none = .error .outOfRange ∧
    (0 ≤ (3 : Int) ∧ (3 : Int) < 7 ∧ (7 : Int) ≤ 10) ∧
    (eztrim 10 (.single (some 5, some 5)) "a.wav" none none false
        (fun _ => true) ⟨[.name "a.wav"], [], [], [], 0⟩).1 = .error .logicErr ∧
    neg2pos_single 100 (some 3) (some 0) = .ok (specStart 100 (some 3), 100) ∧
    neg2pos_multi 10 [some 25] [(none : Option Int)] = .error .outOfRange ∧
    (0 ≤ (2 : Int) ∧ (2 : Int) < 9 ∧ (9 : Int) ≤ 10) ∧
    (eztrim 10 (.list [(some 5, some 6), (some 3, some 2)]) "a.wav" none none false
        (fun _ => true) ⟨[.name "a.wav"], [], [], [], 0⟩).1 = .error .logicErr :=
  ⟨c2_amended_trim_validation.1 10 [(some 1, some 0), (some 2, some 3)] "a.wav" none
      (fun _ => true) ⟨[.name "a.wav"], [], [], [], 0⟩ (by decide) (by decide) (by decide),
   c2_amended_trim_validation.2.1 10 (some 25) none (by decide),
   c2_amended_trim_validation.2.2.1 10 (some 3) (some 7) 3 7 (by decide) (by decide),
   c2_amended_trim_validation.2.2.2.1 10 (some 5, some 5) "a.wav" none (fun _ => true)
      ⟨[.name "a.wav"], [], [], [], 0⟩ 5 5 (by decide) (by decide) (by decide) (by decide),
   c2_amended_trim_validation.2.2.2.2.1 100 (some 3) (by decide) (by decide),
   c2_amended_trim_validation.2.2.2.2.2.2.1 10 [some 25] [(none : Option Int)] rfl
      (Or.inl ⟨some 25, by decide, by decide⟩),
   c2_amended_trim_validation.2.2.2.2.2.2.2.1 10 [some 2] [some (-1)] [2] [9]
      (by decide) 0 2 9 rfl rfl (by decide),
   c2_amended_trim_validation.2.2.2.2.2.2.2.2.1 10 (some 5, some 6) (some 3, some 2) []
      "a.wav" none (fun _ => true) ⟨[.name "a.wav"], [], [], [], 0⟩ [5, 3] [6, 2]
      (by decide) (by decide) (by decide) (by decide) (by decide)⟩

/-- C3 counterexample: a single trim given as the bare tuple
`(None, None)` — which resolves to exactly `(0, num_frames)` — does *not*
short-circuit: `eztrim` performs a full-range extraction, invoking one
external ffmpeg process, because the early-return of lines 157-171 only
applies to a one-element *list* of trims. -/
theorem c3_bare_none_none_extracts :
    eztrim 10 (.single (none, none)) "a.wav" none none false (fun _ => true)
        ⟨[.name "a.wav"], [], [], [], 0⟩ =
      (.ok (.path (some "a_cut.wav")),
       ⟨[.name "a_cut.wav", .name "a.wav"], [.extract 0 10 (.name "a_cut.wav")], [], [], 0⟩) ∧
    (eztrim 10 (.single (none, none)) "a.wav" none none false (fun _ => true)
        ⟨[.name "a.wav"], [], [], [], 0⟩).2.runs ≠ [] := by
  constructor <;> decide

/-- C3 amended: only the one-element list `[(None, None)]` is recognized
as a no-op — `eztrim` then warns and returns the output name early, with no
external invocation and the filesystem unchanged.  A bare `(None, None)`
tuple instead performs a full-range `(0, num_frames)` extraction with one
external invocation. -/
theorem c3_amended_noop :
    (∀ (N : Int) (audio : String) (out0 : Option String) (oracle : Nat → Bool) (st : S),
      FName.name audio ∈ st.fs →
      FName.name (resolve_outfile audio out0).1 ∉ st.fs →
      eztrim N (.list [((none : Option Int), (none : Option Int))]) audio out0 none false
          oracle st =
        (.ok (.path (some (resolve_outfile audio out0).1)),
         warnW .noneNoneSlice (warnW .listOfOne
           (if (resolve_outfile audio out0).2.2 then warnW .unsupportedExt st else st)))) ∧
    (∀ (N : Int) (audio : String) (out0 : Option String) (oracle : Nat → Bool) (st : S),
      FName.name audio ∈ st.fs →
      FName.name (resolve_outfile audio out0).1 ∉ st.fs →
      0 < N →
      (eztrim N (.single (none, none)) audio out0 none false oracle st).1 =
        .ok (.path (some (resolve_outfile audio out0).1)) ∧
      (eztrim N (.single (none, none)) audio out0 none false oracle st).2.runs =
        st.runs ++ [.extract 0 N (.name (resolve_outfile audio out0).1)]) := by
  constructor
  · intro N audio out0 oracle st h1 h2
    rw [eztrim_nodebug N _ audio out0 oracle st h1 h2]
    rfl
  · intro N audio out0 oracle st h1 h2 hN
    rw [eztrim_nodebug N _ audio out0 oracle st h1 h2]
    have hres : neg2pos_single N (none : Option Int) (none : Option Int) = .ok (0, N) := by
      have h := neg2pos_single_eq N none none (by simpa using hN.le) (by simpa using hN.le)
      rw [h]
      norm_num [specStart, specEnd]
    simp only [eztrim_single, hres]
    rw [if_neg (not_le.mpr hN)]
    simp [runFF_runs, ite_state_runs _ _ _ (warnW_runs _ _)]

/-- C3 witness: the amended theorem applied at a concrete clip and audio
file, with its filesystem and frame-count hypotheses discharged. -/
theorem c3_amended_witness :
    eztrim 7 (.list [((none : Option Int), (none : Option Int))]) "b.flac" none none false
        (fun _ => true) ⟨[.name "b.flac"], [], [], [], 0⟩ =
      (.ok (.path (some "b_cut.flac")),
       warnW .noneNoneSlice (warnW .listOfOne
         (if (resolve_outfile "b.flac" none).2.2 then
            warnW .unsupportedExt ⟨[.name "b.flac"], [], [], [], 0⟩
          else ⟨[.name "b.flac"], [], [], [], 0⟩))) ∧
    (eztrim 7 (.single (none, none)) "b.flac" none none false
        (fun _ => true) ⟨[.name "b.flac"], [], [], [], 0⟩).2.runs =
      [] ++ [.extract 0 7 (.name "b_cut.flac")] := by
  constructor
  · have h := c3_amended_noop.1 7 "b.flac" none (fun _ => true)
      ⟨[.name "b.flac"], [], [], [], 0⟩ (by decide) (by decide)
    rw [h]
    rfl
  · have h := (c3_amended_noop.2 7 "b.flac" none (fun _ => true)
      ⟨[.name "b.flac"], [], [], [], 0⟩ (by decide) (by decide) (by decide)).2
    rw [h]
    rfl

/-- C6: confirmed, with the Python floats modelled as exact rationals.
For every clip with N ≥ 0 frames and constant frame rate R > 0, the CFR
timecode table has length N+1, entry i equals round(1e9·i/R)/1e9 under
Python's half-to-even round, the sequence is non-decreasing, entry 0 is
0.0, the last entry is within 1e-9 seconds of N/R, and a zero-frame clip
yields the single-element table [0.0]. -/
theorem c6_cfr_table_spec (N : Nat) (R : ℚ) (hR : 0 < R) :
    (get_timecodes_cfr N R).length = N + 1 ∧
    (∀ i : Nat, i ≤ N →
      (get_timecodes_cfr N R).get? i =
        some ((rndHE ((10 ^ 9 : ℚ) * i / R) : ℚ) / 10 ^ 9)) ∧
    (get_timecodes_cfr N R).Pairwise (· ≤ ·) ∧
    (get_timecodes_cfr N R).get? 0 = some 0 ∧
    (∀ t : ℚ, (get_timecodes_cfr N R).get? N = some t →
      |t - (N : ℚ) / R| ≤ 1 / 10 ^ 9) ∧
    get_timecodes_cfr 0 R = [0] := by
  have hent : ∀ i : Nat, i < N + 1 → (get_timecodes_cfr N R).get? i =
      some ((rndHE ((10 ^ 9 : ℚ) * i * (1 / R)) : ℚ) / 10 ^ 9) := by
    intro i hi
    unfold get_timecodes_cfr
    rw [List.get?_map, List.get?_range hi]
    rfl
  have hzero : ∀ Q : ℚ, (10 ^ 9 : ℚ) * ((0 : ℕ) : ℚ) * (1 / Q) = 0 := by
    intro Q
    push_cast
    ring
  refine ⟨?_, ?_, ?_, ?_, ?_, ?_⟩
  · unfold get_timecodes_cfr
    rw [List.length_map, List.length_range]
  · intro i hi
    rw [hent i (by omega), mul_one_div]
  · have hmono : ∀ a b : Nat, a < b →
        ((rndHE ((10 ^ 9 : ℚ) * a * (1 / R)) : ℚ) / 10 ^ 9) ≤
          ((rndHE ((10 ^ 9 : ℚ) * b * (1 / R)) : ℚ) / 10 ^ 9) := by
      intro a b hab
      have hcast : (a : ℚ) ≤ b := by exact_mod_cast hab.le
      have h1 : (10 ^ 9 : ℚ) * a * (1 / R) ≤ (10 ^ 9 : ℚ) * b * (1 / R) := by
        have hinv : (0 : ℚ) ≤ 1 / R := by positivity
        have hmul : (10 ^ 9 : ℚ) * a ≤ (10 ^ 9 : ℚ) * b := by nlinarith
        exact mul_le_mul_of_nonneg_right hmul hinv
      have h2 : ((rndHE ((10 ^ 9 : ℚ) * a * (1 / R)) : ℤ) : ℚ) ≤
          ((rndHE ((10 ^ 9 : ℚ) * b * (1 / R)) : ℤ) : ℚ) :=
        Int.cast_le.mpr (rndHE_mono h1)
      exact (div_le_div_iff_of_pos_right (by norm_num)).mpr h2
    unfold get_timecodes_cfr
    rw [List.pairwise_map]
    exact (List.pairwise_lt_range _).imp (fun hab => hmono _ _ hab)
  · rw [hent 0 (by omega), hzero R, rndHE_zero]
    norm_num
  · intro t ht
    rw [hent N (by omega)] at ht
    injection ht with ht
    rw [← ht]
    have hb := rndHE_bounds ((10 ^ 9 : ℚ) * N * (1 / R))
    have hX : ((10 ^ 9 : ℚ) * N * (1 / R)) / 10 ^ 9 = (N : ℚ) / R := by
      field_simp
      ring
    have key : |(rndHE ((10 ^ 9 : ℚ) * N * (1 / R)) : ℚ) / 10 ^ 9 -
        ((10 ^ 9 : ℚ) * N * (1 / R)) / 10 ^ 9| ≤ 1 / 10 ^ 9 := by
      rw [div_sub_div_same, abs_div, abs_of_pos (show (0 : ℚ) < 10 ^ 9 by norm_num)]
      have habs : |(rndHE ((10 ^ 9 : ℚ) * N * (1 / R)) : ℚ) -
          (10 ^ 9 : ℚ) * N * (1 / R)| ≤ 1 / 2 :=
        abs_le.mpr ⟨by linarith [hb.1], by linarith [hb.2]⟩
      calc |(rndHE ((10 ^ 9 : ℚ) * N * (1 / R)) : ℚ) - (10 ^ 9 : ℚ) * N * (1 / R)| / 10 ^ 9
          ≤ (1 / 2) / 10 ^ 9 := (div_le_div_iff_of_pos_right (by norm_num)).mpr habs
        _ ≤ 1 / 10 ^ 9 := by norm_num
    rw [← hX]
    exact key
  · unfold get_timecodes_cfr
    have hr1 : List.range (0 + 1) = [0] := rfl
    rw [hr1]
    simp only [List.map_cons, List.map_nil]
    rw [hzero R, rndHE_zero]
    norm_num

/-- C6 witness: the table theorem applied to a 2-frame clip at the NTSC
film rate 24000/1001, with the positivity hypothesis discharged. -/
theorem c6_cfr_table_witness :
    (0 : ℚ) < 24000 / 1001 ∧ (get_timecodes_cfr 2 (24000 / 1001)).length = 2 + 1 :=
  ⟨by norm_num, (c6_cfr_table_spec 2 (24000 / 1001) (by norm_num)).1⟩

/-- C7 counterexample: `FFmpegAudio.recut` performs no collision guard.
With the destination "out.mka" already existing, a one-range recut of a
copyable stream succeeds (no AlreadyExists error is raised before or after
extraction) and the pre-existing destination is silently overwritten by
`os.rename`. -/
theorem c7_recut_overwrites :
    recut "in.mka" [((0 : ℚ), (5 : ℚ))]
        [⟨some ⟨.audio, .lossless, "flac", true, true⟩, some 16, 1⟩]
        ["out"] (fun _ => true) ⟨[.name "in.mka", .name "out.mka"], [], [], [], 0⟩ =
      (.ok ["out.mka"],
       ⟨[.name "in.mka", .name "out.mka"], [.clipRun 0 5 (.tmp 0)], [],
        [.name "out.mka"], 1⟩) ∧
    FName.name "out.mka" ∈
      (recut "in.mka" [((0 : ℚ), (5 : ℚ))]
        [⟨some ⟨.audio, .lossless, "flac", true, true⟩, some 16, 1⟩]
        ["out"] (fun _ => true) ⟨[.name "in.mka", .name "out.mka"], [], [], [], 0⟩).2.overwrites := by
  constructor <;> decide

/-- C7 amended: `eztrim` (non-debug) does fail fast before any temporary
file is created — with FileExistsError when the resolved output path
already exists, and with a ValueError when the fixed manifest name
"_acsuite_temp_concat.txt" already exists — leaving the filesystem and the
invocation log untouched; `FFmpegAudio.recut` and `clip_single`, however,
have no collision guard (see the counterexample). -/
theorem c7_amended_collision_guard :
    (∀ (N : Int) (trims : Trims) (audio : String) (out0 : Option String)
       (tf : Option String) (oracle : Nat → Bool) (st : S),
      FName.name audio ∈ st.fs →
      FName.name (resolve_outfile audio out0).1 ∈ st.fs →
      (eztrim N trims audio out0 tf false oracle st).1 = .error .fileExists ∧
      (eztrim N trims audio out0 tf false oracle st).2.fs = st.fs ∧
      (eztrim N trims audio out0 tf false oracle st).2.runs = st.runs) ∧
    (∀ (N : Int) (t1 t2 : PyTrim) (rest : List PyTrim) (audio : String)
       (out0 : Option String) (oracle : Nat → Bool) (st : S) (ss es : List Int) (w : Bool),
      FName.name audio ∈ st.fs →
      FName.name (resolve_outfile audio out0).1 ∉ st.fs →
      (∀ p ∈ t1 :: t2 :: rest, ¬ p.2 = some 0) →
      neg2pos_multi N ((t1 :: t2 :: rest).map Prod.fst)
          ((t1 :: t2 :: rest).map Prod.snd) = .ok (ss, es) →
      check_ordered ss es = (true, w) →
      FName.manifest ∈ st.fs →
      (eztrim N (.list (t1 :: t2 :: rest)) audio out0 none false oracle st).1 =
        .error .manifestExists ∧
      (eztrim N (.list (t1 :: t2 :: rest)) audio out0 none false oracle st).2.fs = st.fs ∧
      (eztrim N (.list (t1 :: t2 :: rest)) audio out0 none false oracle st).2.runs =
        st.runs) := by
  constructor
  · intro N trims audio out0 tf oracle st h1 h2
    have h : eztrim N trims audio out0 tf false oracle st =
        (.error .fileExists,
         if (resolve_outfile audio out0).2.2 then warnW .unsupportedExt st else st) := by
      simp only [eztrim]
      rw [if_neg (by simp)]
      rw [eztrim_checks_outfile_exists audio out0 tf st h1 h2]
    rw [h]
    refine ⟨rfl, ?_, ?_⟩
    · exact ite_state_fs _ _ _ (warnW_fs _ _)
    · exact ite_state_runs _ _ _ (warnW_runs _ _)
  · intro N t1 t2 rest audio out0 oracle st ss es w h1 h2 hno hmulti hco hmem
    have h : eztrim N (.list (t1 :: t2 :: rest)) audio out0 none false oracle st =
        (.error .manifestExists,
         if w = true then
           warnW .overlap
             (if (resolve_outfile audio out0).2.2 then warnW .unsupportedExt st else st)
         else
           (if (resolve_outfile audio out0).2.2 then warnW .unsupportedExt st else st)) := by
      rw [eztrim_nodebug N _ audio out0 oracle st h1 h2]
      simp only []
      rw [if_neg (by push_neg; exact hno)]
      simp only [eztrim_multi, hmulti, hco]
      rw [if_neg (by simp)]
      rw [if_pos (by
        rw [ite_state_fs _ _ _ (warnW_fs _ _), ite_state_fs _ _ _ (warnW_fs _ _)]
        exact hmem)]
    rw [h]
    refine ⟨rfl, ?_, ?_⟩
    · rw [ite_state_fs _ _ _ (warnW_fs _ _), ite_state_fs _ _ _ (warnW_fs _ _)]
    · rw [ite_state_runs _ _ _ (warnW_runs _ _), ite_state_runs _ _ _ (warnW_runs _ _)]

/-- C7 witness: both collision guards of the amended theorem applied at
concrete inputs: an existing resolved output "a_cut.wav" makes `eztrim`
fail fast with FileExistsError, and an existing manifest makes the
multi-trim path fail fast with the manifest ValueError. -/
theorem c7_amended_witness :
    (eztrim 10 (.single (some 0, some 1)) "a.wav" none none false (fun _ => true)
        ⟨[.name "a.wav", .name "a_cut.wav"], [], [], [], 0⟩).1 = .error .fileExists ∧
    (eztrim 10 (.list [(some 0, some 1), (some 2, some 3)]) "a.wav" none none false
        (fun _ => true) ⟨[.name "a.wav", .manifest], [], [], [], 0⟩).1 =
      .error .manifestExists :=
  ⟨(c7_amended_collision_guard.1 10 (.single (some 0, some 1)) "a.wav" none none
      (fun _ => true) ⟨[.name "a.wav", .name "a_cut.wav"], [], [], [], 0⟩
      (by decide) (by decide)).1,
   (c7_amended_collision_guard.2 10 (some 0, some 1) (some 2, some 3) [] "a.wav" none
      (fun _ => true) ⟨[.name "a.wav", .manifest], [], [], [], 0⟩ [0, 2] [1, 3] false
      (by decide) (by decide) (by decide) (by decide) (by decide) (by decide)).1⟩

/-- C8: confirmed.  `copy_or_decode` equals the claim-side per-stream
description `glue`: each enumerated stream contributes `-c:a:{i}` and its
`directive`, where a recognized codec with `can_encode` always yields the
stream-copy directive (regardless of compression class), a recognized
codec without `can_encode` yields a decode to `pcm_s{depth}le` for depth
in {8, 16, 24, 32, 64} and to the default `pcm_s16le` otherwise (including
an unknown depth), and a stream with no recognized codec fails with the
UnsupportedCodec error. -/
theorem c8_codec_resolution :
    (∀ streams : List AudioStream, copy_or_decode streams = glue 0 streams) ∧
    (∀ (s : AudioStream) (c : Codec), s.codec = some c → c.can_encode = true →
      directive s = .ok "copy") ∧
    (∀ (s : AudioStream) (c : Codec) (dp : Int), s.codec = some c →
      c.can_encode = false → s.depth = some dp →
      directive s = .ok (if dp = 8 ∨ dp = 16 ∨ dp = 24 ∨ dp = 32 ∨ dp = 64 then
        pcmName dp else "pcm_s16le")) ∧
    (∀ (s : AudioStream) (c : Codec), s.codec = some c → c.can_encode = false →
      s.depth = none → directive s = .ok "pcm_s16le") ∧
    (∀ s : AudioStream, s.codec = none →
      directive s = .error (.unsupportedCodec s.stream_index)) := by
  refine ⟨fun streams => cod_go_eq_glue 0 streams, ?_, ?_, ?_, ?_⟩
  · intro s c hc hce
    simp [directive, hc, hce]
  · intro s c dp hc hce hdp
    simp [directive, hc, hce, pcmFallback, hdp]
  · intro s c hc hce hdp
    simp [directive, hc, hce, pcmFallback, hdp]
  · intro s hc
    simp [directive, hc]

/-- C8 witness: the codec-resolution theorem applied at concrete streams —
a lossy but encodable codec is copied, a non-encodable 24-bit codec
decodes to pcm_s24le, a non-encodable 20-bit codec falls back to
pcm_s16le, and a stream with no recognized codec errors. -/
theorem c8_codec_resolution_witness :
    copy_or_decode [⟨some ⟨.audio, .lossy, "mp3", true, true⟩, some 16, 0⟩] =
      glue 0 [⟨some ⟨.audio, .lossy, "mp3", true, true⟩, some 16, 0⟩] ∧
    directive ⟨some ⟨.audio, .lossy, "mp3", true, true⟩, some 16, 0⟩ = .ok "copy" ∧
    directive ⟨some ⟨.audio, .lossless, "mlp", true, false⟩, some 24, 1⟩ =
      .ok "pcm_s24le" ∧
    directive ⟨some ⟨.audio, .lossless, "odd", true, false⟩, some 20, 2⟩ =
      .ok "pcm_s16le" ∧
    directive ⟨none, none, 3⟩ = .error (.unsupportedCodec 3) := by
  refine ⟨c8_codec_resolution.1 _,
    c8_codec_resolution.2.1 _ _ rfl rfl, ?_, ?_,
    c8_codec_resolution.2.2.2.2 _ rfl⟩
  · have h := c8_codec_resolution.2.2.1
      ⟨some ⟨.audio, .lossless, "mlp", true, false⟩, some 24, 1⟩ _ 24 rfl rfl rfl
    rw [h]
    decide
  · have h := c8_codec_resolution.2.2.1
      ⟨some ⟨.audio, .lossless, "odd", true, false⟩, some 20, 2⟩ _ 20 rfl rfl rfl
    rw [h]
    decide

/-- C9 counterexample: trim overlap is not the sole condition reported as
a non-fatal advisory.  An unsupported audio extension (".xyz") also raises
only a warning: the operation proceeds, re-encodes to ".wav", succeeds,
and the warning log contains the extension advisory and no overlap
advisory. -/
theorem c9_extension_advisory :
    (eztrim 10 (.single (some 0, some 5)) "a.xyz" none none false (fun _ => true)
        ⟨[.name "a.xyz"], [], [], [], 0⟩).1 = .ok (.path (some "a_cut.wav")) ∧
    (eztrim 10 (.single (some 0, some 5)) "a.xyz" none none false (fun _ => true)
        ⟨[.name "a.xyz"], [], [], [], 0⟩).2.warns = [.unsupportedExt] ∧
    Warn.overlap ∉ (eztrim 10 (.single (some 0, some 5)) "a.xyz" none none false
        (fun _ => true) ⟨[.name "a.xyz"], [], [], [], 0⟩).2.warns := by
  refine ⟨by decide, by decide, by decide⟩

/-- C9 amended: for every list of resolved trims in which each
`start_i < end_i`, `_check_ordered` returns True — an adjacent overlap
never aborts and raises only the non-fatal advisory — and the advisory is
emitted exactly when some adjacent pair in caller order satisfies
`end_i ≥ start_{i+1}`: only adjacent pairs are compared.  (Overlap is the
sole advisory of the trim-ordering check itself, but not of the whole
operation — see the counterexample.) -/
theorem c9_amended_overlap_advisory (starts ends : List Int)
    (hlt : ∀ p ∈ starts.zip ends, p.1 < p.2) :
    (check_ordered starts ends).1 = true ∧
    ((check_ordered starts ends).2 = true ↔
      ∃ (i : Nat) (a b : Int), ends.get? i = some a ∧
        starts.get? (i + 1) = some b ∧ b ≤ a) := by
  unfold check_ordered
  rw [if_neg (not_not_intro hlt)]
  refine ⟨rfl, ?_⟩
  simp only [decide_eq_true_eq]
  constructor
  · rintro ⟨p, hp, hle⟩
    obtain ⟨n, hn⟩ := List.mem_iff_get?.mp hp
    obtain ⟨hA, hB⟩ := zip_get?_eq_some.mp hn
    rw [tail_get?] at hB
    exact ⟨n, p.1, p.2, hA, hB, hle⟩
  · rintro ⟨i, a, b, ha, hb, hle⟩
    refine ⟨(a, b), ?_, hle⟩
    apply List.get?_mem (n := i)
    apply zip_get?_eq_some.mpr
    exact ⟨ha, by rw [tail_get?]; exact hb⟩

/-- C9 witness: the advisory characterization applied to the overlapping
trims (0,3), (2,5): the check passes (never aborts) and the advisory fires
because end 3 of the first trim reaches start 2 of the second. -/
theorem c9_amended_witness :
    (check_ordered [0, 2] [3, 5]).1 = true ∧
    ((check_ordered [0, 2] [3, 5]).2 = true ↔
      ∃ (i : Nat) (a b : Int), [3, 5].get? i = some a ∧
        [0, 2].get? (i + 1) = some b ∧ b ≤ a) :=
  c9_amended_overlap_advisory [0, 2] [3, 5] (by decide)

/-- C10 counterexample: with an unsupported audio extension the produced
default output path is not `<stem>_cut<audio ext>`: for "a.xyz" and no
outfile the code produces "a_cut.wav", not "a_cut.xyz" — the ".wav"
substitution applies to every branch of the outfile computation, not only
to the extension-replacement branch. -/
theorem c10_unsupported_ext_not_kept :
    (resolve_outfile "a.xyz" none).1 = "a_cut.wav" ∧
    ¬ (resolve_outfile "a.xyz" none).1 = "a_cut.xyz" := by
  constructor <;> decide

/-- C10 amended: `eztrim` always forces the produced output path's
extension to the *effective* extension — the audio file's extension, or
".wav" when that extension is not in the supported list: with no outfile
the path is `<audio stem>_cut<effective ext>`; an extensionless outfile
gets the effective extension appended; an outfile with the effective
extension is kept; any other extension is replaced by the effective one.
The caller's requested extension is never honored when it differs. -/
theorem c10_amended_extension_forcing (audio : String) (o : Option String) :
    (resolve_outfile audio o).1 = spec_outfile audio o ∧
    (resolve_outfile audio o).2.1 =
      (if (splitext audio).2 ∈ VALID_FFMPEG_EXTENSIONS then (splitext audio).2
       else ".wav") ∧
    ((resolve_outfile audio o).2.2 = true ↔
      (splitext audio).2 ∉ VALID_FFMPEG_EXTENSIONS) := by
  unfold resolve_outfile spec_outfile
  by_cases hm : (splitext audio).2 ∈ VALID_FFMPEG_EXTENSIONS
  · simp only [hm, decide_not, if_pos hm]
    refine ⟨?_, by simp, by simp [hm]⟩
    cases o with
    | none => simp [hm]
    | some f =>
      by_cases hf0 : (splitext f).2 = ""
      · simp [hm, hf0]
      · by_cases hfe : (splitext f).2 = (splitext audio).2
        · simp [hm, hf0, hfe]
        · simp [hm, hf0, hfe]
  · simp only [hm, decide_not, if_neg hm]
    refine ⟨?_, by simp [hm], by simp [hm]⟩
    cases o with
    | none => simp [hm]
    | some f =>
      by_cases hf0 : (splitext f).2 = ""
      · simp [hm, hf0]
      · by_cases hfe : (splitext f).2 = ".wav"
        · simp [hm, hf0, hfe]
        · simp [hm, hf0, hfe]

/-- C10 witness: the extension-forcing theorem applied to an unsupported
audio extension with a conflicting requested outfile extension. -/
theorem c10_amended_extension_witness :
    (resolve_outfile "a.xyz" (some "out.flac")).1 = spec_outfile "a.xyz" (some "out.flac") :=
  (c10_amended_extension_forcing "a.xyz" (some "out.flac")).1

end Acsuite
